import Mathlib

/-!
Verification development for the `deptree` Cypher-like parser and
schema-inference engine (`src/cypher.rs`).

Modelling conventions:
* Every Rust `HashMap<String, V>` is represented by its entry list
  `List (String × V)` taken in the map's iteration order.  Rust's hash-map
  iteration order is unspecified (seeded per map), so any permutation of the
  contents is an admissible representation; statements about "every run" are
  therefore quantified over representations, and counterexamples exhibit an
  admissible representation.  All insertions keep keys distinct
  (`HashMap::insert` overwrites in place, `entry().or_insert` keeps the old
  entry), which the list operations below mirror.
* Rust string ordering (`String: Ord`, byte-wise lexicographic, which on
  UTF-8 coincides with code-point order) is modelled by the lexicographic
  order on `List ℕ` of code points (`nameKey`).
* `itertools::sorted_by_key` is a stable sort; it is modelled by
  `List.insertionSort`, which is stable in the same sense.
* A Rust panic (`unwrap` on `None`, `assert!` failure, `unimplemented!`) is
  modelled by `Option.none`; normal completion by `Option.some`.
* The pest grammar file (`cypher.pest`) is not part of the sources; the
  parse-tree shapes consumed by the semantic extraction functions
  (`parse_map_literal`, `parse_node_pattern`, `parse_pattern_element`, ...)
  are therefore embedded as explicit inductive trees mirroring the `Rule`
  cases those functions match on.
-/

set_option maxRecDepth 10000

namespace Deptree

/-- Rust `String` ordering key: the list of Unicode code points.  Byte-wise
lexicographic order on UTF-8 strings equals lexicographic order on code
points, which is the lexicographic order on `List ℕ`. -/
def nameKey (s : String) : List ℕ := s.data.map (fun c => c.val.toNat)

/-- Rust `str::trim`: strip leading and trailing whitespace. -/
def trimStr (s : String) : String :=
  ⟨((s.data.dropWhile Char.isWhitespace).reverse.dropWhile Char.isWhitespace).reverse⟩

/-- Association-list lookup, modelling `HashMap::get` (contents lookup;
order-independent because keys are kept distinct). -/
def getA {β : Type} : List (String × β) → String → Option β
  | [], _ => none
  | (k', v) :: rest, k => if k' = k then some v else getA rest k

/-- Association-list insert, modelling `HashMap::insert`: overwrites the
value in place when the key is present, otherwise adds a new entry. -/
def insertA {β : Type} : List (String × β) → String → β → List (String × β)
  | [], k, v => [(k, v)]
  | (k', v') :: rest, k, v =>
      if k' = k then (k', v) :: rest else (k', v') :: insertA rest k v

/-- The keys of an association list are pairwise distinct (the invariant
every `HashMap` representation satisfies). -/
def keysNodup {β : Type} (l : List (String × β)) : Prop :=
  (l.map Prod.fst).Nodup

instance {β : Type} (l : List (String × β)) : Decidable (keysNodup l) :=
  inferInstanceAs (Decidable ((l.map Prod.fst).Nodup))

/-- Comparison relation used by every `sorted_by_key(|(k, _)| k)` call in the
source: entries ordered by the Rust string order of their key. -/
def keyLE {β : Type} (a b : String × β) : Prop := nameKey a.1 ≤ nameKey b.1

instance {β : Type} : DecidableRel (keyLE (β := β)) :=
  fun a b => inferInstanceAs (Decidable (nameKey a.1 ≤ nameKey b.1))

instance {β : Type} : IsTotal (String × β) keyLE :=
  ⟨fun a b => le_total (nameKey a.1) (nameKey b.1)⟩

instance {β : Type} : IsTrans (String × β) keyLE :=
  ⟨fun _ _ _ h1 h2 => le_trans h1 h2⟩

/-- Stable sort of map entries by key, modelling
`.iter().sorted_by_key(|(k, _)| k)` from itertools. -/
def sortEntries {β : Type} (l : List (String × β)) : List (String × β) :=
  List.insertionSort keyLE l

/-- Rust `Vec::join(sep)` / the comma joining performed by the serializers. -/
def joinSep (sep : String) : List String → String
  | [] => ""
  | [x] => x
  | x :: y :: xs => x ++ sep ++ joinSep sep (y :: xs)

/-- Comma-joined rendering with a leading separator when non-empty (the shape
`propsBody` produces once a first entry has been written). -/
def joinSepPre (sep : String) : List String → String
  | [] => ""
  | x :: xs => sep ++ joinSep sep (x :: xs)

/-- Value enum of `cypher.rs`: `Integer(i64)`, `Double(String)` (source text
kept verbatim), `String(String)`, `Bool(bool)`. -/
inductive Value : Type
  | integer (i : Int)
  | double (text : String)
  | str (s : String)
  | bool (b : Bool)
deriving DecidableEq, Repr

/-- Display impl for `Value`: integers in decimal, doubles verbatim, strings
double-quoted (no escaping), booleans lowercase. -/
def Value.display : Value → String
  | .integer i => toString i
  | .double text => text
  | .str s => "\"" ++ s ++ "\""
  | .bool b => if b then "true" else "false"

/-- Properties struct: `HashMap<String, Option<Value>>`, `None` being an
explicit null literal.  The list order models the map's iteration order. -/
structure Properties : Type where
  inner : List (String × Option Value)
deriving DecidableEq, Repr

/-- Body of `impl Display for Properties`: the loop over `self.inner.iter()`
(raw map iteration order, NOT the sorted `Properties::iter`), skipping null
entries, writing a comma before every entry except the first one kept. -/
def propsBody : List (String × Option Value) → Bool → String
  | [], _ => ""
  | (_, none) :: rest, first => propsBody rest first
  | (k, some v) :: rest, first =>
      (if first then "" else ",") ++ k ++ ":" ++ v.display ++ propsBody rest false

/-- Display impl for `Properties`: braces around `propsBody`. -/
def Properties.display (p : Properties) : String :=
  "\x7b" ++ propsBody p.inner true ++ "\x7d"

/-- Sorted iteration `Properties::iter` (used by `merge_properties` and the
CSV export, not by `Display`). -/
def Properties.iter (p : Properties) : List (String × Option Value) :=
  sortEntries p.inner

/-- Node struct: label, properties and the derived `primary_value`. -/
structure Node : Type where
  name : String
  properties : Properties
  primary_value : Value
deriving DecidableEq, Repr

/-- Display impl for `Node`: `(:Name{props})`. -/
def Node.display (n : Node) : String :=
  "(:" ++ n.name ++ n.properties.display ++ ")"

/-- Node::new: reads the `id` property with two `unwrap`s; a missing key or
an explicit null `id` is a panic, modelled by `none`. -/
def Node.new (name : String) (properties : Properties) : Option Node :=
  match getA properties.inner "id" with
  | some (some v) => some ⟨name, properties, v⟩
  | _ => none

/-- Edge struct: label, optional properties, and `(label, primary value)`
pairs for both endpoints. -/
structure Edge : Type where
  name : String
  properties : Option Properties
  from_ : String × Value
  to_ : String × Value
deriving DecidableEq, Repr

/-- Display impl for `Edge`: `[:Name]` or `[:Name{props}]`. -/
def Edge.display (e : Edge) : String :=
  match e.properties with
  | none => "[:" ++ e.name ++ "]"
  | some p => "[:" ++ e.name ++ p.display ++ "]"

/-- Triple struct: one parsed statement. -/
structure Triple : Type where
  left : Node
  edge : Edge
  right : Node
deriving DecidableEq, Repr

/-- Triple::generate_create_statement:
`format!("CREATE \x7b\x7d -\x7b\x7d->\x7b\x7d;", left, edge, right)`. -/
def Triple.generate_create_statement (t : Triple) : String :=
  "CREATE " ++ t.left.display ++ " -" ++ t.edge.display ++ "->" ++ t.right.display ++ ";"

/-- Parse tree of `Rule::NumberLiteral`: either a `DoubleLiteral` carrying its
source text, or an `IntegerLiteral`.  The `str::parse::<i64>` conversion of
integer literal text is abstracted to the resulting value; only the double
branch keeps text, which is what the source stores. -/
inductive NumberTree : Type
  | doubleLit (text : String)
  | intLit (value : Int)
deriving DecidableEq, Repr

/-- parse_number_literal: a double keeps its source text verbatim. -/
def parse_number_literal : NumberTree → Value
  | .doubleLit text => Value.double text
  | .intLit i => Value.integer i

/-- Parse tree of `Rule::Literal`: boolean, number, string, nested map
literal, or `NULL`. -/
inductive LiteralTree : Type
  | boolLit (b : Bool)
  | numLit (n : NumberTree)
  | strLit (s : String)
  | mapLit
  | nullLit
deriving DecidableEq, Repr

/-- parse_literal: `NULL` becomes `None`, a nested map literal hits
`unimplemented!` (a panic, modelled by the outer `none`). -/
def parse_literal : LiteralTree → Option (Option Value)
  | .boolLit b => some (some (Value.bool b))
  | .numLit n => some (some (parse_number_literal n))
  | .strLit s => some (some (Value.str s))
  | .mapLit => none
  | .nullLit => some none

/-- Children of a `Rule::MapLiteral` node in document order: whitespace,
property key names and literal values. -/
inductive MapToken : Type
  | sp
  | keyName (k : String)
  | lit (t : LiteralTree)
deriving DecidableEq, Repr

/-- One iteration of the `parse_map_literal` loop, threading the
`(map, current_key)` state; a panic inside `parse_literal` propagates. -/
def mapStep : (List (String × Option Value) × String) → MapToken →
    Option (List (String × Option Value) × String)
  | (m, cur), .sp => some (m, cur)
  | (m, _), .keyName k => some (m, k)
  | (m, cur), .lit t =>
      match parse_literal t with
      | some v => some (insertA m cur v, "")
      | none => none

/-- parse_map_literal: fold the token list with `map.insert(current_key, v)`
(`HashMap::insert`, so a repeated key is overwritten by the later value). -/
def parse_map_literal (ts : List MapToken) : Option (List (String × Option Value)) :=
  (ts.foldlM mapStep ([], "")).map Prod.fst

/-- Parse tree of `Rule::NodePattern`: an optional label text (as returned by
`parse_node_label`) and an optional properties map literal. -/
structure NodeTree : Type where
  label : Option String
  props : Option (List MapToken)
deriving DecidableEq, Repr

/-- parse_node_pattern: defaults (empty name / empty map) for missing parts,
label trimmed, then `Node::new` (which panics without a non-null id). -/
def parse_node_pattern (t : NodeTree) : Option Node := do
  let propMap ←
    match t.props with
    | some ts => parse_map_literal ts
    | none => some []
  Node.new (trimStr (t.label.getD "")) ⟨propMap⟩

/-- Parse tree of `Rule::EdgePattern`: optional label and properties. -/
structure EdgeTree : Type where
  label : Option String
  props : Option (List MapToken)
deriving DecidableEq, Repr

/-- parse_edge_pattern: endpoints are taken from the two nodes passed in;
properties are attached only when the parsed map is non-empty. -/
def parse_edge_pattern (t : EdgeTree) (left_node right_node : Node) : Option Edge := do
  let props ←
    match t.props with
    | some ts => parse_map_literal ts
    | none => some []
  some
    { name := trimStr (t.label.getD "")
      properties := if props.isEmpty then none else some ⟨props⟩
      from_ := (left_node.name, left_node.primary_value)
      to_ := (right_node.name, right_node.primary_value) }

/-- Arrow glyph of a pattern element: `-[..]->` or `<-[..]-`. -/
inductive ArrowDir : Type
  | rightArrow
  | leftArrow
deriving DecidableEq, Repr

/-- Parse tree of `Rule::PatternElement` (whitespace already filtered): the
source-order first node, the arrow direction, the edge, and the source-order
second node. -/
structure PatternElementTree : Type where
  first : NodeTree
  dir : ArrowDir
  edge : EdgeTree
  second : NodeTree
deriving DecidableEq, Repr

/-- parse_pattern_element: both node patterns are parsed in source order;
with a right arrow the triple is `(left, edge(left→right), right)`, with a
left arrow the source-order second node becomes the origin:
`(right, edge(right→left), left)` in the source's variable names. -/
def parse_pattern_element (t : PatternElementTree) : Option Triple := do
  let a ← parse_node_pattern t.first
  let b ← parse_node_pattern t.second
  match t.dir with
  | .rightArrow => do
      let e ← parse_edge_pattern t.edge a b
      some ⟨a, e, b⟩
  | .leftArrow => do
      let e ← parse_edge_pattern t.edge b a
      some ⟨b, e, a⟩

/-- parse: every statement of the input yields one pattern element; the
resulting triples are collected in order (a panic anywhere propagates). -/
def parse (stmts : List PatternElementTree) : Option (List Triple) :=
  stmts.mapM parse_pattern_element

/-- FieldType enum. -/
inductive FieldType : Type
  | integer
  | double
  | boolean
  | str
deriving DecidableEq, Repr

/-- Display impl for `FieldType` (DDL type names). -/
def FieldType.display : FieldType → String
  | .integer => "INT64"
  | .double => "DOUBLE"
  | .boolean => "BOOLEAN"
  | .str => "STRING"

/-- Field struct. -/
structure Field : Type where
  name : String
  type : FieldType
  nullable : Bool
deriving DecidableEq, Repr

/-- TableType enum: `Node` or `Edge(from, to)`. -/
inductive TableType : Type
  | node
  | edge (from_ to_ : String)
deriving DecidableEq, Repr

/-- Table struct; `fields` models `HashMap<String, Field>` as an entry list
in iteration order. -/
structure Table : Type where
  name : String
  type : TableType
  fields : List (String × Field)
  primary_key : String
deriving DecidableEq, Repr

/-- Table::add_field: `entry(name).or_insert_with(..)` — a present key keeps
its Field entirely (type AND nullable), an absent key gets a fresh Field. -/
def Table.add_field (t : Table) (name : String) (ty : FieldType) (nullable : Bool) :
    Table :=
  match getA t.fields name with
  | some _ => t
  | none => { t with fields := t.fields ++ [(name, ⟨name, ty, nullable⟩)] }

/-- The `nullable |= b` update applied to a field. -/
def bumpNullable (b : Bool) (fd : Field) : Field :=
  ⟨fd.name, fd.type, fd.nullable || b⟩

/-- Table::set_field_nullable: `fields.get_mut(name).unwrap().nullable |= b`.
In the source this is only called immediately after `add_field` has ensured
the key is present, so the total update (no-op on an absent key) is faithful
on every reachable call. -/
def Table.set_field_nullable (t : Table) (name : String) (nullable : Bool) : Table :=
  { t with
    fields := t.fields.map (fun kv =>
      if kv.1 = name then (kv.1, bumpNullable nullable kv.2) else kv) }

/-- One step of the `merge_properties` loop: the field type is derived from
the Value variant of the occurrence, `false` nullability for a non-null
occurrence; a null occurrence adds a String field (if new) and forces
`nullable := true`. -/
def mergeStep (t : Table) (kv : String × Option Value) : Table :=
  match kv.2 with
  | some (Value.integer _) => t.add_field kv.1 FieldType.integer false
  | some (Value.double _) => t.add_field kv.1 FieldType.double false
  | some (Value.str _) => t.add_field kv.1 FieldType.str false
  | some (Value.bool _) => t.add_field kv.1 FieldType.boolean false
  | none => (t.add_field kv.1 FieldType.str true).set_field_nullable kv.1 true

/-- Table::merge_properties: iterate `properties.iter()` (the key-sorted
iteration) applying `mergeStep`; it never reports an error. -/
def Table.merge_properties (t : Table) (p : Properties) : Table :=
  (p.iter).foldl mergeStep t

/-- Field names in the order `generate_fields` emits them. -/
def Table.ddl_field_names (t : Table) : List String :=
  (sortEntries t.fields).map Prod.fst

/-- Table::generate_fields: fields sorted by name, rendered
`name TYPE` and joined by `", "`; node tables append the primary key clause,
edge tables prepend the `FROM .. TO ..` clause. -/
def Table.generate_fields (t : Table) : String :=
  let fields := joinSep ", "
    ((sortEntries t.fields).map (fun kv => kv.1 ++ " " ++ kv.2.type.display))
  match t.type with
  | TableType.node => "(" ++ fields ++ ", PRIMARY KEY (" ++ t.primary_key ++ "))"
  | TableType.edge f g => "(FROM " ++ f ++ " TO " ++ g ++ ", " ++ fields ++ ")"

/-- Table::generate_create_statement. -/
def Table.generate_create_statement (t : Table) : String :=
  match t.type with
  | TableType.node => "CREATE NODE TABLE " ++ t.name ++ " " ++ t.generate_fields ++ ";"
  | TableType.edge _ _ => "CREATE REL TABLE " ++ t.name ++ " " ++ t.generate_fields ++ ";"

/-- Sort key of `TableType` under Rust's derived `Ord`: the variant index
first (`Node` before `Edge`), then the `(from, to)` pair lexicographically.
This is exactly the key `Schema::iter_table` sorts by — the table NAME is
not part of it. -/
def TableType.sortKey : TableType → Lex (ℕ × Lex (List ℕ × List ℕ))
  | TableType.node => toLex (0, toLex ([], []))
  | TableType.edge f g => toLex (1, toLex (nameKey f, nameKey g))

/-- Variant rank of a table type (`Node` = 0, `Edge` = 1). -/
def TableType.rank : TableType → ℕ
  | TableType.node => 0
  | TableType.edge _ _ => 1

/-- Comparison used by `Schema::iter_table`'s
`sorted_by_key(|(_, v)| v.r#type.clone())`. -/
def tableLE (a b : String × Table) : Prop :=
  a.2.type.sortKey ≤ b.2.type.sortKey

instance : DecidableRel tableLE :=
  fun a b => inferInstanceAs (Decidable (a.2.type.sortKey ≤ b.2.type.sortKey))

instance : IsTotal (String × Table) tableLE :=
  ⟨fun a b => le_total a.2.type.sortKey b.2.type.sortKey⟩

instance : IsTrans (String × Table) tableLE :=
  ⟨fun _ _ _ h1 h2 => le_trans h1 h2⟩

/-- Schema: `HashMap<String, Table>` as an entry list in iteration order. -/
abbrev Schema := List (String × Table)

/-- Schema::iter_table: stable sort of the table map entries by the tables'
type key only, then drop the keys. -/
def Schema.iter_table (s : Schema) : List Table :=
  (List.insertionSort tableLE s).map Prod.snd

/-- Merge an edge's properties into its table when it carries any
(`if let Some(properties) = &edge.properties`). -/
def mergeEdgeProps (t : Table) (e : Edge) : Table :=
  match e.properties with
  | some p => t.merge_properties p
  | none => t

/-- extract_table_from_node: `entry(name).or_insert(node table)` followed by
`assert_eq!(table.r#type, TableType::Node)` (a failing assertion is a panic,
modelled by `none`) and `merge_properties`. -/
def extract_table_from_node (s : Schema) (n : Node) : Option Schema :=
  match getA s n.name with
  | some t =>
      match t.type with
      | TableType.node => some (insertA s n.name (t.merge_properties n.properties))
      | TableType.edge _ _ => none
  | none =>
      let t : Table := ⟨n.name, TableType.node, [], "id"⟩
      some (s ++ [(n.name, t.merge_properties n.properties)])

/-- extract_schema_from_edge: `entry(name).or_insert(edge table with THIS
triple's endpoint labels)`, then `assert!(matches!(.., Edge(..)))` — the
assertion only checks the variant, never the stored endpoint pair — then the
optional property merge. -/
def extract_schema_from_edge (s : Schema) (e : Edge) : Option Schema :=
  match getA s e.name with
  | some t =>
      match t.type with
      | TableType.node => none
      | TableType.edge _ _ => some (insertA s e.name (mergeEdgeProps t e))
  | none =>
      let t : Table := ⟨e.name, TableType.edge e.from_.1 e.to_.1, [], "id"⟩
      some (s ++ [(e.name, mergeEdgeProps t e)])

/-- extract_schema: left-to-right fold over the triples, processing left
node, edge, right node of each. -/
def extract_schema (ts : List Triple) : Option Schema :=
  ts.foldlM
    (fun s tr => do
      let s1 ← extract_table_from_node s tr.left
      let s2 ← extract_schema_from_edge s1 tr.edge
      extract_table_from_node s2 tr.right)
    []

/-- DDL output of a run: the create statements in `iter_table` order (the
sequence `main.rs` executes). -/
def ddl (s : Schema) : List String :=
  (Schema.iter_table s).map Table.generate_create_statement

/-- Whether the property map records an explicit null for key `k`. -/
def nullOccurrence (l : List (String × Option Value)) (k : String) : Bool :=
  getA l k == some none

/-- Rendered text of one property entry — `none` for a null entry (which the
Display loop skips), `k:v` otherwise. -/
def entryText (kv : String × Option Value) : Option String :=
  kv.2.map (fun v => kv.1 ++ ":" ++ v.display)

/-- Rust string order as a relation on `String`. -/
def strle (a b : String) : Prop := nameKey a ≤ nameKey b

/- Concrete inputs used by counterexamples and witnesses. -/

/-- Node `(:B \x7bid:1\x7d)`. -/
def nB : Node := ⟨"B", ⟨[("id", some (Value.integer 1))]⟩, Value.integer 1⟩

/-- Node `(:A \x7bid:2\x7d)`. -/
def nA : Node := ⟨"A", ⟨[("id", some (Value.integer 2))]⟩, Value.integer 2⟩

/-- Edge `[:E]` from `B` to `A`. -/
def eBA : Edge := ⟨"E", none, ("B", Value.integer 1), ("A", Value.integer 2)⟩

/-- Triple for `(:B \x7bid:1\x7d) -[:E]-> (:A \x7bid:2\x7d);`. -/
def tripBA : Triple := ⟨nB, eBA, nA⟩

/-- Node table `B` as extraction builds it. -/
def tblB : Table := ⟨"B", TableType.node, [("id", ⟨"id", FieldType.integer, false⟩)], "id"⟩

/-- Node table `A` as extraction builds it. -/
def tblA : Table := ⟨"A", TableType.node, [("id", ⟨"id", FieldType.integer, false⟩)], "id"⟩

/-- Edge table `E` as extraction builds it. -/
def tblE : Table := ⟨"E", TableType.edge "B" "A", [], "id"⟩

/-- The schema extracted from `tripBA`, in first-insertion iteration order
(one admissible hash-map iteration order). -/
def schemaBA : Schema := [("B", tblB), ("E", tblE), ("A", tblA)]

/-- The same schema contents in another admissible iteration order. -/
def schemaSwapped : Schema := [("A", tblA), ("E", tblE), ("B", tblB)]

/-- Pattern element for
`(:P \x7bid:1,b:1,a:2,x:null\x7d) -[:E]-> (:Q \x7bid:2\x7d)` with the map
literal entries in source order. -/
def tree6 : PatternElementTree :=
  ⟨⟨some "P", some [MapToken.keyName "id", MapToken.lit (LiteralTree.numLit (NumberTree.intLit 1)),
      MapToken.keyName "b", MapToken.lit (LiteralTree.numLit (NumberTree.intLit 1)),
      MapToken.keyName "a", MapToken.lit (LiteralTree.numLit (NumberTree.intLit 2)),
      MapToken.keyName "x", MapToken.lit LiteralTree.nullLit]⟩,
    ArrowDir.rightArrow,
    ⟨some "E", none⟩,
    ⟨some "Q", some [MapToken.keyName "id", MapToken.lit (LiteralTree.numLit (NumberTree.intLit 2))]⟩⟩

/-- Node for `(:P \x7bid:1,x:null\x7d)`. -/
def nP1 : Node := ⟨"P", ⟨[("id", some (Value.integer 1)), ("x", none)]⟩, Value.integer 1⟩

/-- Node for `(:P \x7bid:2,x:1\x7d)`. -/
def nP2 : Node := ⟨"P", ⟨[("id", some (Value.integer 2)), ("x", some (Value.integer 1))]⟩, Value.integer 2⟩

/-- The schema state after extracting `nP1` then `nP2` (the code path the two
statements `(:P \x7bid:1,x:null\x7d)` and `(:P \x7bid:2,x:1\x7d)` drive). -/
def schemaP2 : Option Schema :=
  extract_table_from_node ([] : Schema) nP1 >>= fun s => extract_table_from_node s nP2

/-- Node pattern `(:P \x7bname:"x"\x7d)` — no `id` property. -/
def noIdTree : NodeTree :=
  ⟨some "P", some [MapToken.keyName "name", MapToken.lit (LiteralTree.strLit "x")]⟩

/-- Pattern element containing the id-less node pattern. -/
def noIdStmt : PatternElementTree :=
  ⟨noIdTree, ArrowDir.rightArrow, ⟨some "E", none⟩,
    ⟨some "Q", some [MapToken.keyName "id", MapToken.lit (LiteralTree.numLit (NumberTree.intLit 1))]⟩⟩

/-- Left-arrow pattern element
`(:A \x7bid:1\x7d) <-[:E]- (:B \x7bid:2\x7d)`. -/
def treeL : PatternElementTree :=
  ⟨⟨some "A", some [MapToken.keyName "id", MapToken.lit (LiteralTree.numLit (NumberTree.intLit 1))]⟩,
    ArrowDir.leftArrow,
    ⟨some "E", none⟩,
    ⟨some "B", some [MapToken.keyName "id", MapToken.lit (LiteralTree.numLit (NumberTree.intLit 2))]⟩⟩

/-- Parsed source-order first node of `treeL`. -/
def nLA : Node := ⟨"A", ⟨[("id", some (Value.integer 1))]⟩, Value.integer 1⟩

/-- Parsed source-order second node of `treeL`. -/
def nLB : Node := ⟨"B", ⟨[("id", some (Value.integer 2))]⟩, Value.integer 2⟩

/-- Triple produced for `treeL`: origin `B`, destination `A`. -/
def tripL : Triple := ⟨nLB, ⟨"E", none, ("B", Value.integer 2), ("A", Value.integer 1)⟩, nLA⟩

/-- Table with an Integer field `x`, as left by `(:P \x7bid:1,x:1\x7d)`. -/
def tblP : Table :=
  ⟨"P", TableType.node,
    [("id", ⟨"id", FieldType.integer, false⟩), ("x", ⟨"x", FieldType.integer, false⟩)], "id"⟩

/-- Properties of a later occurrence `\x7bid:2,x:"a"\x7d` whose `x` variant
disagrees with the recorded Integer type. -/
def propsXStr : Properties := ⟨[("id", some (Value.integer 2)), ("x", some (Value.str "a"))]⟩

/-- Schema holding only edge table `E` recorded with endpoints `(B, A)`. -/
def schemaE : Schema := [("E", tblE)]

/-- A later edge `[:E \x7bw:1\x7d]` whose endpoint labels `(X, Y)` disagree
with the recorded `(B, A)` pair. -/
def eXY : Edge := ⟨"E", some ⟨[("w", some (Value.integer 1))]⟩, ("X", Value.integer 5), ("Y", Value.integer 6)⟩

/-- Two fields with distinct names, shared by the canonicity witnesses. -/
def fldA : Field := ⟨"a", FieldType.integer, false⟩

/-- Second field for the canonicity witnesses. -/
def fldB : Field := ⟨"b", FieldType.str, true⟩

/-- Table `W` with fields listed in one iteration order. -/
def tblW1 : Table := ⟨"W", TableType.node, [("a", fldA), ("b", fldB)], "id"⟩

/-- Table `W` with the same fields in the opposite iteration order. -/
def tblW2 : Table := ⟨"W", TableType.node, [("b", fldB), ("a", fldA)], "id"⟩

end Deptree

namespace Deptree

/- Helper lemmas. -/

theorem nameKey_injective : Function.Injective nameKey := by
  intro s t h
  have hinj : Function.Injective (fun c : Char => c.val.toNat) := by
    intro a b hab
    exact Char.ext (UInt32.toNat.inj hab)
  have hdata : s.data = t.data := List.map_injective_iff.mpr hinj h
  cases s; cases t; simp_all

theorem getA_mem {β : Type} {l : List (String × β)} {k : String} {v : β}
    (h : getA l k = some v) : (k, v) ∈ l := by
  induction l with
  | nil => simp [getA] at h
  | cons kv rest ih =>
      obtain ⟨k', v'⟩ := kv
      by_cases hk : k' = k
      · subst hk
        simp [getA] at h
        subst h
        exact List.mem_cons_self _ _
      · simp [getA, hk] at h
        exact List.mem_cons_of_mem _ (ih h)

theorem mem_getA {β : Type} {l : List (String × β)} {k : String} {v : β}
    (hnd : keysNodup l) (h : (k, v) ∈ l) : getA l k = some v := by
  induction l with
  | nil => simp at h
  | cons kv rest ih =>
      obtain ⟨k', v'⟩ := kv
      rcases List.mem_cons.mp h with heq | hmem
      · obtain ⟨h1, h2⟩ := Prod.mk.injEq .. ▸ heq
        simp_all [getA]
      · have hk : k' ≠ k := by
          intro hk
          subst hk
          have : k' ∈ rest.map Prod.fst := List.mem_map_of_mem Prod.fst hmem
          exact (List.nodup_cons.mp hnd).1 this
        have hnd' : keysNodup rest := (List.nodup_cons.mp hnd).2
        simp [getA, hk]
        exact ih hnd' hmem

theorem getA_none_iff {β : Type} {l : List (String × β)} {k : String} :
    getA l k = none ↔ k ∉ l.map Prod.fst := by
  induction l with
  | nil => simp [getA]
  | cons kv rest ih =>
      obtain ⟨k', v'⟩ := kv
      by_cases hk : k' = k
      · subst hk
        simp [getA]
      · simp [getA, hk, ih, Ne.symm hk]

theorem getA_eq_of_perm {β : Type} {l₁ l₂ : List (String × β)}
    (hp : l₁.Perm l₂) (hnd : keysNodup l₁) (k : String) : getA l₁ k = getA l₂ k := by
  have hnd₂ : keysNodup l₂ := ((hp.map Prod.fst).nodup_iff).mp hnd
  cases h : getA l₁ k with
  | some v => exact (mem_getA hnd₂ (hp.subset (getA_mem h))).symm
  | none =>
      have : k ∉ l₂.map Prod.fst := fun hm =>
        getA_none_iff.mp h ((hp.map Prod.fst).mem_iff.mpr hm)
      exact (getA_none_iff.mpr this).symm

theorem sortEntries_perm {β : Type} (l : List (String × β)) :
    (sortEntries l).Perm l :=
  List.perm_insertionSort keyLE l

theorem sortEntries_sorted {β : Type} (l : List (String × β)) :
    List.Sorted keyLE (sortEntries l) :=
  List.sorted_insertionSort keyLE l

theorem keysNodup_sortEntries {β : Type} {l : List (String × β)}
    (hnd : keysNodup l) : keysNodup (sortEntries l) :=
  (((sortEntries_perm l).map Prod.fst).nodup_iff).mpr hnd

theorem getA_sortEntries {β : Type} {l : List (String × β)} (hnd : keysNodup l)
    (k : String) : getA (sortEntries l) k = getA l k :=
  getA_eq_of_perm (sortEntries_perm l) (keysNodup_sortEntries hnd) k

theorem sorted_keys_nodup_perm_eq {β : Type} :
    ∀ (l₁ l₂ : List (String × β)), l₁.Perm l₂ → List.Sorted keyLE l₁ →
      List.Sorted keyLE l₂ → keysNodup l₁ → l₁ = l₂
  | [], _, hp, _, _, _ => hp.nil_eq
  | _ :: _, [], hp, _, _, _ => by simpa using hp.length_eq
  | a :: t₁, b :: t₂, hp, hs₁, hs₂, hnd => by
      by_cases hab : a = b
      · subst hab
        have ht := sorted_keys_nodup_perm_eq t₁ t₂ hp.cons_inv hs₁.of_cons hs₂.of_cons
          (List.nodup_cons.mp hnd).2
        rw [ht]
      · exfalso
        have ha2 : a ∈ t₂ := by
          have := hp.subset (List.mem_cons_self a t₁)
          rcases List.mem_cons.mp this with h | h
          · exact absurd h hab
          · exact h
        have hb1 : b ∈ t₁ := by
          have := hp.symm.subset (List.mem_cons_self b t₂)
          rcases List.mem_cons.mp this with h | h
          · exact absurd h.symm hab
          · exact h
        have h1 : keyLE a b := (List.sorted_cons.mp hs₁).1 b hb1
        have h2 : keyLE b a := (List.sorted_cons.mp hs₂).1 a ha2
        have hkey : a.1 = b.1 := nameKey_injective (le_antisymm h1 h2)
        have : b.1 ∈ t₁.map Prod.fst := List.mem_map_of_mem Prod.fst hb1
        rw [← hkey] at this
        exact (List.nodup_cons.mp hnd).1 this

theorem sortEntries_canonical {β : Type} {l₁ l₂ : List (String × β)}
    (hp : l₁.Perm l₂) (hnd : keysNodup l₁) : sortEntries l₁ = sortEntries l₂ :=
  sorted_keys_nodup_perm_eq _ _
    ((sortEntries_perm l₁).trans (hp.trans (sortEntries_perm l₂).symm))
    (sortEntries_sorted l₁) (sortEntries_sorted l₂) (keysNodup_sortEntries hnd)

theorem getA_append_single_self {β : Type} {l : List (String × β)} {k : String}
    (h : getA l k = none) (v : β) : getA (l ++ [(k, v)]) k = some v := by
  induction l with
  | nil => simp [getA]
  | cons kv rest ih =>
      obtain ⟨k', v'⟩ := kv
      by_cases hk : k' = k
      · simp [getA, hk] at h
      · simp [getA, hk] at h ⊢
        exact ih h

theorem getA_append_single_other {β : Type} (l : List (String × β)) {k k' : String}
    (h : k' ≠ k) (v : β) : getA (l ++ [(k, v)]) k' = getA l k' := by
  induction l with
  | nil => simp [getA, Ne.symm h]
  | cons kv rest ih =>
      obtain ⟨k'', v''⟩ := kv
      by_cases hk : k'' = k'
      · simp [getA, hk]
      · simp [getA, hk, ih]

theorem getA_insertA_self {β : Type} (l : List (String × β)) (k : String) (v : β) :
    getA (insertA l k v) k = some v := by
  induction l with
  | nil => simp [insertA, getA]
  | cons kv rest ih =>
      obtain ⟨k', v'⟩ := kv
      by_cases hk : k' = k
      · simp [insertA, hk, getA]
      · simp [insertA, hk, getA, ih]

theorem getA_mapIf_self {β : Type} (l : List (String × β)) (k : String) (g : β → β) :
    getA (l.map (fun kv => if kv.1 = k then (kv.1, g kv.2) else kv)) k =
      (getA l k).map g := by
  induction l with
  | nil => simp [getA]
  | cons kv rest ih =>
      obtain ⟨k', v'⟩ := kv
      simp only [List.map_cons]
      by_cases hk : k' = k
      · subst hk
        rw [if_pos rfl]
        simp [getA, ih]
      · rw [if_neg (by simpa using hk)]
        simp [getA, hk, ih]

theorem getA_mapIf_other {β : Type} (l : List (String × β)) {k k' : String}
    (h : k' ≠ k) (g : β → β) :
    getA (l.map (fun kv => if kv.1 = k then (kv.1, g kv.2) else kv)) k' =
      getA l k' := by
  induction l with
  | nil => simp [getA]
  | cons kv rest ih =>
      obtain ⟨k'', v''⟩ := kv
      simp only [List.map_cons]
      by_cases hk : k'' = k
      · subst hk
        rw [if_pos rfl]
        simp [getA, Ne.symm h, ih]
      · rw [if_neg (by simpa using hk)]
        simp [getA, ih]

theorem add_field_of_present {t : Table} {k : String} {f : Field}
    (h : getA t.fields k = some f) (ty : FieldType) (nb : Bool) :
    t.add_field k ty nb = t := by
  simp [Table.add_field, h]

theorem getA_add_field_other (t : Table) {k k' : String} (h : k' ≠ k)
    (ty : FieldType) (nb : Bool) :
    getA (t.add_field k ty nb).fields k' = getA t.fields k' := by
  unfold Table.add_field
  cases hg : getA t.fields k with
  | some f => rfl
  | none => simpa using getA_append_single_other t.fields h _

theorem getA_set_field_nullable_self {t : Table} {k : String} {f : Field}
    (h : getA t.fields k = some f) (b : Bool) :
    getA (t.set_field_nullable k b).fields k = some (bumpNullable b f) := by
  show getA (t.fields.map (fun kv => if kv.1 = k then (kv.1, bumpNullable b kv.2) else kv)) k = _
  rw [getA_mapIf_self, h]
  rfl

theorem getA_set_field_nullable_other (t : Table) {k k' : String} (h : k' ≠ k)
    (b : Bool) :
    getA (t.set_field_nullable k b).fields k' = getA t.fields k' := by
  show getA (t.fields.map (fun kv => if kv.1 = k then (kv.1, bumpNullable b kv.2) else kv)) k' = _
  exact getA_mapIf_other t.fields h _

theorem add_field_type (t : Table) (k : String) (ty : FieldType) (nb : Bool) :
    (t.add_field k ty nb).type = t.type := by
  unfold Table.add_field
  cases getA t.fields k <;> rfl

theorem set_field_nullable_type (t : Table) (k : String) (b : Bool) :
    (t.set_field_nullable k b).type = t.type := rfl

theorem mergeStep_type (t : Table) (kv : String × Option Value) :
    (mergeStep t kv).type = t.type := by
  unfold mergeStep
  rcases kv with ⟨k, _ | v⟩
  · rw [set_field_nullable_type, add_field_type]
  · cases v <;> simp [add_field_type]

theorem foldl_mergeStep_type :
    ∀ (l : List (String × Option Value)) (t : Table),
      (l.foldl mergeStep t).type = t.type
  | [], _ => rfl
  | kv :: rest, t => by
      rw [List.foldl_cons, foldl_mergeStep_type rest, mergeStep_type]

theorem merge_properties_type (t : Table) (p : Properties) :
    (t.merge_properties p).type = t.type :=
  foldl_mergeStep_type _ t

theorem mergeEdgeProps_type (t : Table) (e : Edge) :
    (mergeEdgeProps t e).type = t.type := by
  unfold mergeEdgeProps
  cases e.properties with
  | none => rfl
  | some p => exact merge_properties_type t p

theorem mergeStep_getA_other (t : Table) {kv : String × Option Value} {k : String}
    (h : kv.1 ≠ k) : getA (mergeStep t kv).fields k = getA t.fields k := by
  unfold mergeStep
  rcases kv with ⟨k', _ | v⟩
  · rw [getA_set_field_nullable_other _ (Ne.symm h), getA_add_field_other _ (Ne.symm h)]
  · cases v <;> exact getA_add_field_other _ (Ne.symm h) _ _

theorem foldl_mergeStep_not_mem {k : String} :
    ∀ {l : List (String × Option Value)} (t : Table),
      k ∉ l.map Prod.fst →
      getA (l.foldl mergeStep t).fields k = getA t.fields k
  | [], _, _ => rfl
  | kv :: rest, t, hnm => by
      have h1 : kv.1 ≠ k := by
        intro h
        exact hnm (by simp [← h])
      have h2 : k ∉ rest.map Prod.fst := fun h => hnm (by simp [h])
      rw [List.foldl_cons, foldl_mergeStep_not_mem _ h2, mergeStep_getA_other t h1]

theorem foldl_first_seen {k : String} :
    ∀ (l : List (String × Option Value)) (t : Table) (f : Field),
      keysNodup l → getA t.fields k = some f →
      getA (l.foldl mergeStep t).fields k =
        some { f with nullable := f.nullable || nullOccurrence l k }
  | [], t, f, _, hf => by
      simpa [nullOccurrence, getA] using hf
  | (k', v) :: rest, t, f, hnd, hf => by
      by_cases hk : k' = k
      · subst hk
        have hnm : k' ∉ rest.map Prod.fst := (List.nodup_cons.mp hnd).1
        rw [List.foldl_cons, foldl_mergeStep_not_mem _ hnm]
        cases v with
        | none =>
            show getA ((t.add_field k' FieldType.str true).set_field_nullable k' true).fields k' = _
            rw [add_field_of_present hf]
            rw [getA_set_field_nullable_self hf]
            simp [nullOccurrence, getA, bumpNullable]
        | some val =>
            have hstep : mergeStep t (k', some val) = t := by
              unfold mergeStep
              cases val <;> exact add_field_of_present hf _ _
            rw [hstep, hf]
            simp [nullOccurrence, getA]
      · have hnd' : keysNodup rest := (List.nodup_cons.mp hnd).2
        have hf' : getA (mergeStep t (k', v)).fields k = some f := by
          rw [mergeStep_getA_other t hk]
          exact hf
        rw [List.foldl_cons, foldl_first_seen rest _ f hnd' hf']
        simp [nullOccurrence, getA, hk]

theorem propsBody_spec :
    ∀ l : List (String × Option Value),
      propsBody l true = joinSep "," (l.filterMap entryText) ∧
      propsBody l false = joinSepPre "," (l.filterMap entryText)
  | [] => ⟨rfl, rfl⟩
  | (k, none) :: rest => by
      have ih := propsBody_spec rest
      simpa [propsBody, entryText] using ih
  | (k, some v) :: rest => by
      have ih := propsBody_spec rest
      cases hfm : rest.filterMap entryText with
      | nil =>
          rw [hfm] at ih
          constructor
          · show "" ++ k ++ ":" ++ v.display ++ propsBody rest false = _
            simp [entryText, hfm, ih.2, joinSep, joinSepPre, String.append_assoc]
          · show "," ++ k ++ ":" ++ v.display ++ propsBody rest false = _
            simp [entryText, hfm, ih.2, joinSep, joinSepPre, String.append_assoc]
      | cons x xs =>
          rw [hfm] at ih
          constructor
          · show "" ++ k ++ ":" ++ v.display ++ propsBody rest false = _
            simp [entryText, hfm, ih.2, joinSep, joinSepPre, String.append_assoc]
          · show "," ++ k ++ ":" ++ v.display ++ propsBody rest false = _
            simp [entryText, hfm, ih.2, joinSep, joinSepPre, String.append_assoc]

theorem sortKey_rank_le {a b : TableType} (h : a.sortKey ≤ b.sortKey) :
    a.rank ≤ b.rank := by
  cases a <;> cases b <;> simp [TableType.rank]
  case edge.node f g =>
    simp [TableType.sortKey, Prod.Lex.le_iff] at h

theorem iter_table_rank_sorted (s : Schema) :
    List.Sorted (· ≤ ·) ((Schema.iter_table s).map (fun t => t.type.rank)) := by
  have hs : List.Sorted tableLE (List.insertionSort tableLE s) :=
    List.sorted_insertionSort tableLE s
  unfold Schema.iter_table
  rw [List.map_map]
  exact List.Pairwise.map _ (fun a b hab => sortKey_rank_le hab) hs

theorem ddl_field_names_sorted (t : Table) : List.Sorted strle t.ddl_field_names := by
  unfold Table.ddl_field_names
  exact List.Pairwise.map _ (fun a b hab => hab) (sortEntries_sorted t.fields)

theorem parse_edge_pattern_endpoints {t : EdgeTree} {x y : Node} {e : Edge}
    (h : parse_edge_pattern t x y = some e) :
    e.from_ = (x.name, x.primary_value) ∧ e.to_ = (y.name, y.primary_value) := by
  rcases t with ⟨lbl, props⟩
  cases props with
  | none =>
      simp [parse_edge_pattern] at h
      rw [← h]
      exact ⟨rfl, rfl⟩
  | some ts =>
      cases hpm : parse_map_literal ts with
      | none => simp [parse_edge_pattern, hpm] at h
      | some pm =>
          simp [parse_edge_pattern, hpm] at h
          rw [← h]
          exact ⟨rfl, rfl⟩

/- Claim theorems. -/

/-- C1: schema extraction unifies with first-seen-type-wins — once a Field
exists for a key, `merge_properties` (which never reports an error, even on a
disagreeing Value variant) leaves its name and type unchanged and only OR's
the nullable flag with `true` exactly when the merged occurrence is an
explicit null for that key. -/
theorem c1_first_seen_type_wins (t : Table) (p : Properties) (k : String) (f : Field)
    (hnd : keysNodup p.inner) (hf : getA t.fields k = some f) :
    getA (t.merge_properties p).fields k =
      some { f with nullable := f.nullable || nullOccurrence p.inner k } := by
  unfold Table.merge_properties Properties.iter
  have hnd' : keysNodup (sortEntries p.inner) := keysNodup_sortEntries hnd
  have hno : nullOccurrence (sortEntries p.inner) k = nullOccurrence p.inner k := by
    unfold nullOccurrence
    rw [getA_sortEntries hnd]
  rw [← hno]
  exact foldl_first_seen _ t f hnd' hf

/-- C1 witness: a table with `x : Integer` merged with a later occurrence
`x:"a"` whose variant disagrees keeps `x : Integer`, not nullable. -/
theorem c1_witness :
    getA (tblP.merge_properties propsXStr).fields "x" =
      some ⟨"x", FieldType.integer, false⟩ :=
  (c1_first_seen_type_wins tblP propsXStr "x" ⟨"x", FieldType.integer, false⟩
    (by decide) (by decide)).trans (by decide)

/-- C2 counterexample: extracting `(:B \x7bid:1\x7d) -[:E]-> (:A \x7bid:2\x7d)`
gives a run whose table-map iteration order is `B, E, A`; `iter_table` sorts
by table type only, so it emits node table `B` before node table `A` — not
the name-tie-broken order `A, B` the claim requires. -/
theorem c2_counterexample :
    (extract_schema [tripBA]).map (fun s => (Schema.iter_table s).map Table.name) =
      some ["B", "A", "E"] ∧ (["B", "A", "E"] : List String) ≠ ["A", "B", "E"] := by
  decide

/-- C2 (amended): `generate_create_statement` emits a table's fields sorted
lexicographically by field name, and `iter_table` yields all Node tables
before all Edge tables; but ties among tables of the same kind follow the
hash map's unspecified iteration order (Edge ties are keyed by the
`(from, to)` label pair), not the table name. -/
theorem c2_amended :
    (∀ t : Table, List.Sorted strle t.ddl_field_names) ∧
    (∀ s : Schema, List.Sorted (· ≤ ·) ((Schema.iter_table s).map (fun t => t.type.rank))) :=
  ⟨ddl_field_names_sorted, iter_table_rank_sorted⟩

/-- C3 counterexample: after `(:P \x7bid:1,x:null\x7d)` then
`(:P \x7bid:2,x:1\x7d)`, field `x` has type String (assigned by the null
first occurrence), not Integer as the claim states. -/
theorem c3_counterexample :
    (schemaP2 >>= fun s => getA s "P" >>= fun t => getA t.fields "x") =
      some ⟨"x", FieldType.str, true⟩ ∧ FieldType.str ≠ FieldType.integer := by
  decide

/-- C3 (amended): for the statements `(:P \x7bid:1,x:null\x7d)` then
`(:P \x7bid:2,x:1\x7d)`, field `x` is typed String (a null first occurrence
creates a String field) with nullable = true, while `id` is Integer, not
nullable. -/
theorem c3_amended :
    (schemaP2 >>= fun s => getA s "P" >>= fun t => getA t.fields "x") =
      some ⟨"x", FieldType.str, true⟩ ∧
    (schemaP2 >>= fun s => getA s "P" >>= fun t => getA t.fields "id") =
      some ⟨"id", FieldType.integer, false⟩ := by
  decide

/-- C4: a node pattern without an `id` property makes `Node::new` hit
`unwrap` on `None` — a panic that aborts the process (modelled by `none`),
propagating through `parse_node_pattern` and the whole parse call; it never
succeeds with a default, but it also is not the reported, recoverable
MissingPrimaryKey error the claim (and spec §7) requires. -/
theorem c4_missing_id_panics :
    Node.new "P" ⟨[("name", some (Value.str "x"))]⟩ = none ∧
    parse_node_pattern noIdTree = none ∧
    parse [noIdStmt] = none := by
  decide

/-- C5: endpoints are canonicalised by the arrow glyph — with a right arrow
the source-order first node is the Triple's left component and the Edge's
`from` endpoint; with a left arrow the source-order second node becomes both
the Triple's left component and the Edge's `from` endpoint, and the
source-order first node becomes the destination. -/
theorem c5_canonical_endpoints (t : PatternElementTree) (a b : Node) (trip : Triple)
    (ha : parse_node_pattern t.first = some a) (hb : parse_node_pattern t.second = some b)
    (hp : parse_pattern_element t = some trip) :
    (t.dir = ArrowDir.rightArrow →
      trip.left = a ∧ trip.right = b ∧
      trip.edge.from_ = (a.name, a.primary_value) ∧
      trip.edge.to_ = (b.name, b.primary_value)) ∧
    (t.dir = ArrowDir.leftArrow →
      trip.left = b ∧ trip.right = a ∧
      trip.edge.from_ = (b.name, b.primary_value) ∧
      trip.edge.to_ = (a.name, a.primary_value)) := by
  unfold parse_pattern_element at hp
  rw [ha, hb] at hp
  cases hd : t.dir with
  | rightArrow =>
      rw [hd] at hp
      simp only [Option.bind_eq_bind, Option.some_bind] at hp
      cases he : parse_edge_pattern t.edge a b with
      | none => rw [he] at hp; simp at hp
      | some e =>
          rw [he] at hp
          simp only [Option.some_bind, Option.some.injEq] at hp
          obtain ⟨hf, ht'⟩ := parse_edge_pattern_endpoints he
          refine ⟨fun _ => ?_, fun hcontra => ?_⟩
          · rw [← hp]
            exact ⟨rfl, rfl, hf, ht'⟩
          · exact absurd hcontra (by decide)
  | leftArrow =>
      rw [hd] at hp
      simp only [Option.bind_eq_bind, Option.some_bind] at hp
      cases he : parse_edge_pattern t.edge b a with
      | none => rw [he] at hp; simp at hp
      | some e =>
          rw [he] at hp
          simp only [Option.some_bind, Option.some.injEq] at hp
          obtain ⟨hf, ht'⟩ := parse_edge_pattern_endpoints he
          refine ⟨fun hcontra => ?_, fun _ => ?_⟩
          · exact absurd hcontra (by decide)
          · rw [← hp]
            exact ⟨rfl, rfl, hf, ht'⟩

/-- C5 witness: `(:A \x7bid:1\x7d) <-[:E]- (:B \x7bid:2\x7d)` yields a Triple
whose left component and edge origin are the source-order right node `B`. -/
theorem c5_witness :
    tripL.left = nLB ∧ tripL.right = nLA ∧
    tripL.edge.from_ = (nLB.name, nLB.primary_value) ∧
    tripL.edge.to_ = (nLA.name, nLA.primary_value) :=
  (c5_canonical_endpoints treeL nLA nLB tripL (by decide) (by decide) (by decide)).2 rfl

/-- C6 counterexample: the Display impl for Properties iterates the raw map
order, so for the reachable map order `id, b, a` the rendered braces are
`\x7bid:1,b:1,a:2\x7d` — not sorted lexicographically by key as the claim
states (which would give `\x7ba:2,b:1,id:1\x7d`). -/
theorem c6_counterexample :
    (parse_pattern_element tree6).map Triple.generate_create_statement =
      some "CREATE (:P\x7bid:1,b:1,a:2\x7d) -[:E]->(:Q\x7bid:2\x7d);" ∧
    ("CREATE (:P\x7bid:1,b:1,a:2\x7d) -[:E]->(:Q\x7bid:2\x7d);" : String) ≠
      "CREATE (:P\x7ba:2,b:1,id:1\x7d) -[:E]->(:Q\x7bid:2\x7d);" := by
  decide

/-- C6 (amended): `generate_create_statement` renders each property brace
containing exactly the non-null entries, comma-joined in the map's
(unspecified) iteration order — not sorted; string values are quoted,
booleans lowercase, doubles exactly as their stored text. -/
theorem c6_amended :
    (∀ l : List (String × Option Value),
      propsBody l true = joinSep "," (l.filterMap entryText)) ∧
    (∀ p : Properties, p.display = "\x7b" ++ propsBody p.inner true ++ "\x7d") ∧
    (∀ tr : Triple, tr.generate_create_statement =
      "CREATE " ++ tr.left.display ++ " -" ++ tr.edge.display ++ "->" ++
        tr.right.display ++ ";") ∧
    (∀ s, Value.display (Value.str s) = "\"" ++ s ++ "\"") ∧
    (∀ b, Value.display (Value.bool b) = if b then "true" else "false") ∧
    (∀ d, Value.display (Value.double d) = d) :=
  ⟨fun l => (propsBody_spec l).1, fun _ => rfl, fun _ => rfl,
    fun _ => rfl, fun _ => rfl, fun _ => rfl⟩

/-- C7 counterexample: `schemaBA` and `schemaSwapped` are two admissible
iteration orders of the very same extracted table map (they are permutations
of each other), yet the emitted DDL statement sequences differ — so two runs
over the same text need not produce byte-identical DDL output. -/
theorem c7_counterexample :
    extract_schema [tripBA] = some schemaBA ∧ schemaBA.Perm schemaSwapped ∧
    ddl schemaBA ≠ ddl schemaSwapped := by
  decide

/-- C7 (amended): re-running produces the same multiset of DDL statements,
and each individual table's statement is byte-identical (field order is
canonicalised by sorting the distinct field names); only the relative order
of statements for tables of the same kind can differ between runs. -/
theorem c7_amended :
    (∀ s₁ s₂ : Schema, s₁.Perm s₂ → (ddl s₁).Perm (ddl s₂)) ∧
    (∀ t₁ t₂ : Table, t₁.name = t₂.name → t₁.type = t₂.type →
      t₁.primary_key = t₂.primary_key → t₁.fields.Perm t₂.fields →
      keysNodup t₁.fields →
      t₁.generate_create_statement = t₂.generate_create_statement) := by
  constructor
  · intro s₁ s₂ h
    unfold ddl Schema.iter_table
    exact (((List.perm_insertionSort tableLE s₁).trans
      (h.trans (List.perm_insertionSort tableLE s₂).symm)).map Prod.snd).map
        Table.generate_create_statement
  · intro t₁ t₂ hn hty hpk hfp hnd
    have hs : sortEntries t₁.fields = sortEntries t₂.fields :=
      sortEntries_canonical hfp hnd
    unfold Table.generate_create_statement Table.generate_fields
    rw [hn, hty, hpk, hs]

/-- C7 witness: the amended claim applied at two concrete permuted schema
representations and at two field orders of the same table. -/
theorem c7_witness :
    (ddl [("A", tblA), ("B", tblB)]).Perm (ddl [("B", tblB), ("A", tblA)]) ∧
    tblW1.generate_create_statement = tblW2.generate_create_statement :=
  ⟨c7_amended.1 [("A", tblA), ("B", tblB)] [("B", tblB), ("A", tblA)] (by decide),
    c7_amended.2 tblW1 tblW2 rfl rfl rfl (by decide) (by decide)⟩

/-- C8: a double literal is stored verbatim — `parse_number_literal` keeps
the source text, `Display` reproduces it unchanged, and the property
rendering shows it exactly as typed (never reparsed through a binary
floating-point type). -/
theorem c8_double_verbatim :
    (∀ s, parse_number_literal (NumberTree.doubleLit s) = Value.double s) ∧
    (∀ s, (Value.double s).display = s) ∧
    (∀ k s, propsBody [(k, some (Value.double s))] true = k ++ ":" ++ s) := by
  refine ⟨fun s => rfl, fun s => rfl, fun k s => ?_⟩
  show "" ++ k ++ ":" ++ (Value.double s).display ++ propsBody [] false = k ++ ":" ++ s
  simp [propsBody, Value.display]

/-- C9: an Edge table's recorded `(from, to)` pair is fixed at creation —
merging any later edge with the same label succeeds without error (the
assertion only checks the variant) and leaves the stored pair unchanged,
whatever the later edge's endpoints are. -/
theorem c9_edge_endpoints_fixed (s : Schema) (e : Edge) (t : Table) (f g : String)
    (ht : getA s e.name = some t) (hty : t.type = TableType.edge f g) :
    ((extract_schema_from_edge s e).bind fun s' => getA s' e.name).map Table.type =
      some (TableType.edge f g) ∧ (extract_schema_from_edge s e).isSome = true := by
  have hx : extract_schema_from_edge s e =
      some (insertA s e.name (mergeEdgeProps t e)) := by
    obtain ⟨tn, tty, tf, tpk⟩ := t
    have hty' : tty = TableType.edge f g := hty
    subst hty'
    unfold extract_schema_from_edge
    rw [ht]
  rw [hx]
  simp [getA_insertA_self, mergeEdgeProps_type, hty]

/-- C9 witness: table `E` recorded with endpoints `(B, A)` merged with a
later `[:E \x7bw:1\x7d]` edge between `X` and `Y` — no error, pair kept. -/
theorem c9_witness :
    ((extract_schema_from_edge schemaE eXY).bind fun s' => getA s' eXY.name).map
        Table.type = some (TableType.edge "B" "A") ∧
      (extract_schema_from_edge schemaE eXY).isSome = true :=
  c9_edge_endpoints_fixed schemaE eXY tblE "B" "A" (by decide) (by decide)

/-- C10: within one map literal a repeated property key is accepted without
error and the rightmost occurrence wins — `HashMap::insert` overwrites, so
the parsed map sends the key to the last occurrence's value. -/
theorem c10_last_wins (ts : List MapToken) (k : String) (lt : LiteralTree)
    (v : Option Value) (m : List (String × Option Value))
    (hv : parse_literal lt = some v)
    (hm : parse_map_literal (ts ++ [MapToken.keyName k, MapToken.lit lt]) = some m) :
    getA m k = some v := by
  unfold parse_map_literal at hm
  rw [List.foldlM_append] at hm
  cases hft : ts.foldlM mapStep ([], "") with
  | none => rw [hft] at hm; simp at hm
  | some st =>
      obtain ⟨m₀, c₀⟩ := st
      rw [hft] at hm
      simp [mapStep, hv, List.foldlM] at hm
      rw [← hm]
      exact getA_insertA_self m₀ k v

/-- C10 witness: `\x7bk:1,k:2\x7d` parses with `k` mapped to `2`. -/
theorem c10_witness :
    getA [("k", some (Value.integer 2))] "k" = some (some (Value.integer 2)) :=
  c10_last_wins [MapToken.keyName "k", MapToken.lit (LiteralTree.numLit (NumberTree.intLit 1))]
    "k" (LiteralTree.numLit (NumberTree.intLit 2)) (some (Value.integer 2))
    [("k", some (Value.integer 2))] rfl (by decide)

end Deptree
